import Mathlib

/-!
Shallow embedding of `numba/hsa/compiler.py`: the HSA kernel dispatch layer.
Pure functions of the source become Lean functions; stateful code (the
per-context finalized-program cache, the auto-specialization table, object
cloning) becomes explicit state passing over heap-like lists.  Machine
integers are `Int`/`Nat` with explicit wrapping where ctypes truncates.
The file models a 64-bit platform: `ctypes.sizeof(ctypes.c_void_p) == 8`.
-/

namespace NumbaHsa

/-! ## Argument type descriptors and runtime values

`ArgTy` mirrors the numba type kinds that `_unpack_argument` dispatches on:
`types.Array` (with a rank), `types.Integer` (signedness and bit width),
`types.float64`, `types.float32`, `types.boolean`, `types.complex64`,
`types.complex128`, and `other` for every type with no packing rule. -/

inductive ArgTy where
  | array (ndim : Nat)
  | int (signed : Bool) (width : Nat)
  | float32
  | float64
  | boolean
  | complex64
  | complex128
  | other (name : String)
deriving DecidableEq

/-- A host ndarray as seen by `_unpack_argument`: `val.size`,
`val.dtype.itemsize`, `val.ctypes.data`, `val.shape`, `val.strides`. -/
structure ArrayVal where
  size : Int
  itemsize : Int
  data : Int
  shape : List Int
  strides : List Int
deriving DecidableEq

/-- numpy's `val.ndim`, which is the length of `val.shape`. -/
def ArrayVal.ndim (a : ArrayVal) : Nat := a.shape.length

/-- Host argument values.  Float payloads are carried as opaque `Int`
tokens: no claim depends on floating-point arithmetic, only on which cells
are emitted. -/
inductive Value where
  | varr (a : ArrayVal)
  | vint (n : Int)
  | vfloat (x : Int)
  | vbool (b : Bool)
  | vcomplex (re im : Int)
  | vother (tag : Nat)
deriving DecidableEq

/-! ## ctypes cells -/

/-- One native scalar cell appended to `kernelargs` by `_unpack_argument`:
`c_void_p`, `c_ssize_t`, `c_intN`/`c_uintN`, `c_float`, `c_double`,
`c_uint8`. -/
inductive Cell where
  | voidp (v : Int)
  | ssize (v : Int)
  | cint (signed : Bool) (width : Nat) (v : Int)
  | cfloat (v : Int)
  | cdouble (v : Int)
  | cuint8 (v : Int)
deriving DecidableEq

/-- Source `ctypes.sizeof(ctypes.c_void_p)` on the modelled 64-bit platform. -/
def sizeof_void_p : Nat := 8

/-- Source `ctypes.sizeof` of one cell. -/
def ctypes_sizeof : Cell → Nat
  | .voidp _ => sizeof_void_p
  | .ssize _ => sizeof_void_p
  | .cint _ w _ => w / 8
  | .cfloat _ => 4
  | .cdouble _ => 8
  | .cuint8 _ => 1

/-- ctypes integer conversion truncates to the target width (two's
complement for signed types). -/
def wrapInt (signed : Bool) (width : Nat) (n : Int) : Int :=
  if signed then (n + 2 ^ (width - 1)) % 2 ^ width - 2 ^ (width - 1)
  else n % 2 ^ width

/-- Errors raised inside the marshaller: the source's
`raise NotImplementedError(ty, val)` for a type with no packing rule
(the spec's `UnsupportedArgumentType`), and the TypeError ctypes would
raise when a value does not fit the declared type's conversion. -/
inductive PackError where
  | notImplemented (ty : ArgTy) (val : Value)
  | ctypesTypeError (ty : ArgTy) (val : Value)
deriving DecidableEq

/-- Source `_unpack_argument(ty, val, kernelargs)`: convert one argument to ctypes
cells and append them to `kernelargs`.  Mirrors the source's dispatch:
Array emits parent, nitems, itemsize, data, then `val.ndim` shape cells and
`val.ndim` stride cells (indexing `val.shape[ax]` / `val.strides[ax]`);
Integer emits one cell of the matching width; float64/float32/boolean emit
one cell; complex64/complex128 emit real then imaginary; anything else
raises. -/
def _unpack_argument (ty : ArgTy) (val : Value) (kernelargs : List Cell) :
    Except PackError (List Cell) :=
  match ty, val with
  | .array _, .varr a =>
    .ok (kernelargs ++
      [Cell.voidp 0, Cell.ssize a.size, Cell.ssize a.itemsize,
       Cell.voidp a.data] ++
      (List.range a.ndim).map (fun ax => Cell.ssize (a.shape.getD ax 0)) ++
      (List.range a.ndim).map (fun ax => Cell.ssize (a.strides.getD ax 0)))
  | .int s w, .vint n => .ok (kernelargs ++ [Cell.cint s w (wrapInt s w n)])
  | .float64, .vfloat x => .ok (kernelargs ++ [Cell.cdouble x])
  | .float32, .vfloat x => .ok (kernelargs ++ [Cell.cfloat x])
  | .boolean, .vbool b =>
    .ok (kernelargs ++ [Cell.cuint8 (if b then 1 else 0)])
  | .complex64, .vcomplex re im =>
    .ok (kernelargs ++ [Cell.cfloat re, Cell.cfloat im])
  | .complex128, .vcomplex re im =>
    .ok (kernelargs ++ [Cell.cdouble re, Cell.cdouble im])
  | .other nm, v => .error (.notImplemented (.other nm) v)
  | t, v => .error (.ctypesTypeError t v)

/-- The unpacking loop of `HSAKernel.__call__`:
`for ty, val in zip(...): _unpack_argument(ty, val, expanded_values)`. -/
def unpackArgs : List (ArgTy × Value) → List Cell → Except PackError (List Cell)
  | [], acc => .ok acc
  | (ty, v) :: rest, acc =>
    match _unpack_argument ty v acc with
    | .ok acc1 => unpackArgs rest acc1
    | .error e => .error e

/-! ## Padding and argument-buffer layout -/

/-- Source `_calc_padding_for_alignment(align, base)`: byte padding required to
move `base` to a multiple of `align`. -/
def _calc_padding_for_alignment (align base : Nat) : Nat :=
  let rmdr := base % align
  if rmdr = 0 then 0 else align - rmdr

/-- Source `HSAKernel.INJECTED_NARG`. -/
def INJECTED_NARG : Nat := 6

/-- Source `self._injectedargsize = INJECTED_NARG * ctypes.sizeof(c_void_p)`. -/
def injectedargsize : Nat := INJECTED_NARG * sizeof_void_p

/-- One iteration of the offset computation in `HSAKernel.__call__`:
`align = sizeof(av); base += pad; ...; base += align`. -/
def layoutStep (base : Nat) (av : Cell) : Nat :=
  let align := ctypes_sizeof av
  base + _calc_padding_for_alignment align base + align

/-- The running offset after writing all cells starting at `base`. -/
def finalOffset (base : Nat) (cells : List Cell) : Nat :=
  cells.foldl layoutStep base

/-! ## The invoke path of `HSAKernel.__call__`

`__call__` is stateful (driver allocation, pointer writes, dispatch); it is
embedded as a function producing an event trace plus an outcome. -/

/-- Observable driver-level events of one invoke. -/
inductive Event where
  | alloc (size : Nat)
  | writeCell (offset : Nat) (av : Cell)
  | dispatchEv (global_size : List Int) (local_size : Option (List Int))
  | free
deriving DecidableEq

/-- Failure outcomes of `__call__`: a marshalling error, or the
`assert base == ctypes.sizeof(kernargs)` failing (the spec's
`ArgumentLayoutMismatch`). -/
inductive CallError where
  | pack (e : PackError)
  | argumentLayoutMismatch
deriving DecidableEq

/-- The write loop of `__call__`: pad, write at the padded offset,
advance.  Returns the final offset and the write events in order. -/
def writeLoop (base : Nat) : List Cell → Nat × List Event
  | [] => (base, [])
  | av :: rest =>
    let align := ctypes_sizeof av
    let off := base + _calc_padding_for_alignment align base
    let r := writeLoop (off + align) rest
    (r.1, Event.writeCell off av :: r.2)

/-- The per-kernel data `__call__` reads: declared argument types and the
current launch configuration. -/
structure KernelModel where
  argument_types : List ArgTy
  global_size : List Int
  local_size : Option (List Int)
deriving DecidableEq

/-- Source `HSAKernel.__call__(*args)` for a buffer of device-reported size
`kernargSize`: `bind()` allocates the buffer (and zeroes the injected
header); arguments are unpacked; cells are written starting at
`self._injectedargsize`; the final offset is asserted equal to the buffer
size; then dispatch and free. -/
def hsaKernelCall (k : KernelModel) (args : List Value) (kernargSize : Nat) :
    List Event × Except CallError Unit :=
  let bindEvents := [Event.alloc kernargSize]
  match unpackArgs (k.argument_types.zip args) [] with
  | .error e => (bindEvents, .error (.pack e))
  | .ok cells =>
    let r := writeLoop injectedargsize cells
    if r.1 = kernargSize then
      (bindEvents ++ r.2 ++
        [Event.dispatchEv k.global_size k.local_size, Event.free], .ok ())
    else
      (bindEvents ++ r.2, .error .argumentLayoutMismatch)

/-! ## Configuration model (`HSAKernelBase`)

`global_size` / `local_size` arguments accept either a scalar or a
sequence (`_ensure_list`). -/

inductive SizeArg where
  | scalar (n : Int)
  | seq (l : List Int)
deriving DecidableEq

/-- Source `_ensure_list(val)`: wrap a scalar into a 1-element list, keep a
tuple/list as a list. -/
def _ensure_list : SizeArg → List Int
  | .scalar n => [n]
  | .seq l => l

/-- Source `_ensure_size_or_append(val, size)`: append 1s until `len(val) >= size`
(`for _ in range(len(val), size): val.append(1)`). -/
def _ensure_size_or_append (val : List Int) (size : Nat) : List Int :=
  val ++ List.replicate (size - val.length) 1

/-- The three configuration fields of `HSAKernelBase`.  The source stores
`local_size` as a tuple or `None`; `stream` defaults to `None`. -/
structure HSAKernelBase where
  global_size : List Int
  local_size : Option (List Int)
  stream : Option Int
deriving DecidableEq

/-- Source `HSAKernelBase.__init__`: `global_size = (1,)`, `local_size = (1,)`,
`stream = None`. -/
def HSAKernelBase.initBase : HSAKernelBase :=
  { global_size := [1], local_size := some [1], stream := none }

/-- The field computation of `HSAKernelBase.configure`: listify
`global_size`; if `local_size` is not `None`, listify it and right-pad both
to the larger length; store `local_size` as a tuple unless it is falsy
(`tuple(local_size) if local_size else None`). -/
def configureSizes (global_size : SizeArg) (local_size : Option SizeArg) :
    List Int × Option (List Int) :=
  let g0 := _ensure_list global_size
  match local_size with
  | some ls =>
    let l0 := _ensure_list ls
    let size := max g0.length l0.length
    let g := _ensure_size_or_append g0 size
    let l := _ensure_size_or_append l0 size
    (g, if l = [] then none else some l)
  | none => (g0, none)

/-- Source `HSAKernelBase.configure(global_size, local_size=None, stream=None)`:
clone `self` (`copy.copy`) and overwrite the three configuration fields of
the clone; the receiver is left untouched (modelled by returning the new
record). -/
def HSAKernelBase.configure (self : HSAKernelBase) (global_size : SizeArg)
    (local_size : Option SizeArg) (stream : Option Int) : HSAKernelBase :=
  let gl := configureSizes global_size local_size
  { self with global_size := gl.1, local_size := gl.2, stream := stream }

/-- Source `HSAKernelBase.__getitem__((griddim, blockdim, stream?))`: right-pad
both to equal rank, compute `gs = [g * l for g, l in zip(griddim,
blockdim)]`, and forward to `configure(gs, blockdim, stream)` (the padded
`blockdim`). -/
def HSAKernelBase.getitem (self : HSAKernelBase) (griddim blockdim : SizeArg)
    (stream : Option Int) : HSAKernelBase :=
  let g0 := _ensure_list griddim
  let b0 := _ensure_list blockdim
  let size := max g0.length b0.length
  let g := _ensure_size_or_append g0 size
  let b := _ensure_size_or_append b0 size
  let gs := List.zipWith (· * ·) g b
  self.configure (.seq gs) (some (.seq b)) stream

/-! ## Heap model for configure's frame effect

Python objects live on a heap and `configure` allocates a clone via
`copy.copy(self)`; existing objects are never written.  The heap is a list
of objects indexed by position; `configure` on a reference appends the
clone.  A call naming a dangling reference is a no-op. -/

structure ConfigureCall where
  ref : Nat
  global_size : SizeArg
  local_size : Option SizeArg
  stream : Option Int

/-- One `configure` call on the object heap: read the receiver, append the
configured clone. -/
def configureOp (objs : List HSAKernelBase) (c : ConfigureCall) :
    List HSAKernelBase :=
  match objs.get? c.ref with
  | some k => objs ++ [k.configure c.global_size c.local_size c.stream]
  | none => objs

/-- A sequence of `configure` calls on the heap, in order. -/
def runConfigures (objs : List HSAKernelBase) :
    List ConfigureCall → List HSAKernelBase
  | [] => objs
  | c :: cs => runConfigures (configureOp objs c) cs

/-! ## The finalized-program cache (`_CachedProgram`) -/

/-- Source `_CacheEntry`: the finalized code descriptor, the program handle and
the chosen kernarg region, all opaque driver handles. -/
structure _CacheEntry where
  code_desc : Nat
  program : Nat
  kernarg_region : Nat
deriving DecidableEq

/-- Source `_CachedProgram`: entry name, the portable binary (opaque), and the
per-context cache dictionary (`key: hsa context`), modelled as an
association list with insertion at the head. -/
structure _CachedProgram where
  _entry_name : String
  _binary : Nat
  _cache : List (Nat × _CacheEntry)
deriving DecidableEq

/-- Dictionary lookup on an association list. -/
def assocLookup {α β : Type} [DecidableEq α] : List (α × β) → α → Option β
  | [], _ => none
  | (k, v) :: rest, a => if k = a then some v else assocLookup rest a

/-- Source `_CachedProgram.get()` for the active context `ctx`.  The whole
finalization sequence (load module, resolve symbol, create program, add
module, finalize, select kernarg region) is abstracted as one driver
function `fin` of the binary and the context; the returned `Nat` counts
how many finalizations this call performed (0 on a cache hit, 1 on a
miss). -/
def _CachedProgram.get (s : _CachedProgram) (fin : Nat → Nat → _CacheEntry)
    (ctx : Nat) : _CachedProgram × _CacheEntry × Nat :=
  match assocLookup s._cache ctx with
  | some result => (s, result, 0)
  | none =>
    let result := fin s._binary ctx
    ({ s with _cache := (ctx, result) :: s._cache }, result, 1)

/-- A sequence of `get` calls; returns the final cache state and, per
call, the context asked for, the entry returned and the number of
finalizations performed. -/
def runGets (fin : Nat → Nat → _CacheEntry) (s : _CachedProgram) :
    List Nat → _CachedProgram × List (Nat × _CacheEntry × Nat)
  | [] => (s, [])
  | c :: cs =>
    let r := s.get fin c
    let rest := runGets fin r.1 cs
    (rest.1, (c, r.2.1, r.2.2) :: rest.2)

/-- Total finalizations performed for context `c` in a trace. -/
def finalizeCount : List (Nat × _CacheEntry × Nat) → Nat → Nat
  | [], _ => 0
  | t :: rest, c => (if t.1 = c then t.2.2 else 0) + finalizeCount rest c

/-- The entries returned for context `c` in a trace, in order. -/
def entriesFor : List (Nat × _CacheEntry × Nat) → Nat → List _CacheEntry
  | [], _ => []
  | t :: rest, c =>
    if t.1 = c then t.2.1 :: entriesFor rest c else entriesFor rest c

/-! ## The specialization table (`AutoJitHSAKernel`) -/

/-- The specialization state: `self.definitions` maps a resolved signature
to a compiled kernel object (kernel objects are identified by the order in
which `compile_kernel` produced them, so distinct compilations yield
distinct objects), plus a log of every `compile_kernel` call's argument
types. -/
structure AutoJitHSAKernel where
  definitions : List (List ArgTy × Nat)
  nextId : Nat
  compiled : List (List ArgTy)
deriving DecidableEq

/-- Source `AutoJitHSAKernel.__init__`: empty table, nothing compiled. -/
def AutoJitHSAKernel.initJit : AutoJitHSAKernel :=
  { definitions := [], nextId := 0, compiled := [] }

/-- Source `AutoJitHSAKernel.specialize(*args)`: resolve the argument types, look
up `self.definitions`; on a miss call `compile_kernel` (logged, yielding a
fresh kernel object) and insert; return the kernel. -/
def AutoJitHSAKernel.specialize (s : AutoJitHSAKernel)
    (resolve : Value → ArgTy) (args : List Value) : AutoJitHSAKernel × Nat :=
  let argtypes := args.map resolve
  match assocLookup s.definitions argtypes with
  | some kernel => (s, kernel)
  | none =>
    ({ definitions := (argtypes, s.nextId) :: s.definitions,
       nextId := s.nextId + 1,
       compiled := s.compiled ++ [argtypes] }, s.nextId)

/-- A sequence of `specialize` calls. -/
def runSpecialize (resolve : Value → ArgTy) (s : AutoJitHSAKernel) :
    List (List Value) → AutoJitHSAKernel
  | [] => s
  | args :: rest => runSpecialize resolve (s.specialize resolve args).1 rest

/-! ## Clones sharing one finalized-program cache

`HSAKernel.__init__` creates exactly one `_CachedProgram`;
`configure` clones via `copy.copy`, a shallow copy, so the clone's
`_cacheprog` attribute is the same heap object.  Kernel objects carry a
reference (index) into a heap of caches. -/

/-- An `HSAKernel` object: the base configuration fields plus the
reference to its `_cacheprog`. -/
structure HSAKernelObj where
  global_size : List Int
  local_size : Option (List Int)
  stream : Option Int
  cacheRef : Nat
deriving DecidableEq

/-- Source `configure` on an `HSAKernel`: `copy.copy` duplicates the attribute
holding the cache reference unchanged, then the three configuration
fields of the clone are overwritten. -/
def HSAKernelObj.configure (self : HSAKernelObj) (global_size : SizeArg)
    (local_size : Option SizeArg) (stream : Option Int) : HSAKernelObj :=
  let gl := configureSizes global_size local_size
  { self with global_size := gl.1, local_size := gl.2, stream := stream }

/-- The heap: all kernel objects and all `_CachedProgram` objects. -/
structure KernelSystem where
  kernels : List HSAKernelObj
  caches : List _CachedProgram
deriving DecidableEq

/-- Source `HSAKernel.__init__` followed by nothing else: one kernel object
referring to the single freshly constructed cache. -/
def initSys (name : String) (bin : Nat) : KernelSystem :=
  { kernels := [{ global_size := [1], local_size := some [1], stream := none,
                  cacheRef := 0 }],
    caches := [{ _entry_name := name, _binary := bin, _cache := [] }] }

/-- Operations a caller can perform on the system: reconfigure any
reachable kernel object (producing a clone), or `bind` any reachable
kernel object while context `ctx` is active. -/
inductive KernelOp where
  | configureK (ref : Nat) (global_size : SizeArg) (local_size : Option SizeArg)
      (stream : Option Int)
  | bindK (ref : Nat) (ctx : Nat)

/-- One step.  `configure` appends a clone sharing the receiver's cache
reference; `bind` runs `_CachedProgram.get` on the receiver's cache.
Returns the contexts finalized during the step.  Dangling references are
no-ops. -/
def sysStep (fin : Nat → Nat → _CacheEntry) (s : KernelSystem) :
    KernelOp → KernelSystem × List Nat
  | .configureK ref gs ls st =>
    match s.kernels.get? ref with
    | some k => ({ s with kernels := s.kernels ++ [k.configure gs ls st] }, [])
    | none => (s, [])
  | .bindK ref ctx =>
    match s.kernels.get? ref with
    | some k =>
      match s.caches.get? k.cacheRef with
      | some cp =>
        let r := cp.get fin ctx
        ({ s with caches := s.caches.set k.cacheRef r.1 },
         List.replicate r.2.2 ctx)
      | none => (s, [])
    | none => (s, [])

/-- A sequence of system operations; returns the final system and the
concatenated list of finalized contexts. -/
def runSys (fin : Nat → Nat → _CacheEntry) (s : KernelSystem) :
    List KernelOp → KernelSystem × List Nat
  | [] => (s, [])
  | op :: ops =>
    let r := sysStep fin s op
    let rest := runSys fin r.1 ops
    (rest.1, r.2 ++ rest.2)

/-! ## Helper lemmas -/

theorem map_range_getD {α β : Type} (f : α → β) (d : α) :
    ∀ l : List α, (List.range l.length).map (fun i => f (l.getD i d)) = l.map f := by
  intro l
  induction l with
  | nil => rfl
  | cons x xs ih =>
    rw [List.length_cons, List.range_succ_eq_map, List.map_cons, List.map_map,
        List.map_cons]
    refine congrArg (f x :: ·) ?_
    rw [← ih]
    rfl

theorem ensure_size_length (l : List Int) (n : Nat) :
    (_ensure_size_or_append l n).length = max l.length n := by
  simp [_ensure_size_or_append]
  omega

theorem ensure_size_self (l : List Int) (n : Nat) (h : n ≤ l.length) :
    _ensure_size_or_append l n = l := by
  simp [_ensure_size_or_append, Nat.sub_eq_zero_of_le h]

theorem writeLoop_fst :
    ∀ (cells : List Cell) (base : Nat),
      (writeLoop base cells).1 = finalOffset base cells := by
  intro cells
  induction cells with
  | nil => intro base; rfl
  | cons c cs ih =>
    intro base
    show (writeLoop (base + _calc_padding_for_alignment (ctypes_sizeof c) base
            + ctypes_sizeof c) cs).1 = _
    rw [ih]
    rfl

theorem writeLoop_events :
    ∀ (cells : List Cell) (base : Nat) (e : Event),
      e ∈ (writeLoop base cells).2 → ∃ off c, e = Event.writeCell off c := by
  intro cells
  induction cells with
  | nil => intro base e h; cases h
  | cons c cs ih =>
    intro base e h
    simp only [writeLoop, List.mem_cons] at h
    rcases h with h | h
    · exact ⟨_, _, h⟩
    · exact ih _ _ h

/-! ## Claim theorems -/

/-- Claim C3: for every positive alignment `a` and offset `b`,
`_calc_padding_for_alignment` returns `0` if `b mod a == 0` and
`a - (b mod a)` otherwise; moreover the padded offset is aligned, and
`pad(8,3) = 5`, `pad(4,8) = 0`, `pad(1,x) = 0` for all `x`. -/
theorem claim_C3 (a b : Nat) (ha : 0 < a) :
    (_calc_padding_for_alignment a b = if b % a = 0 then 0 else a - b % a)
    ∧ (b + _calc_padding_for_alignment a b) % a = 0
    ∧ _calc_padding_for_alignment 8 3 = 5
    ∧ _calc_padding_for_alignment 4 8 = 0
    ∧ ∀ x, _calc_padding_for_alignment 1 x = 0 := by
  refine ⟨rfl, ?_, rfl, rfl, fun x => ?_⟩
  · by_cases h : b % a = 0
    · simp [_calc_padding_for_alignment, h]
    · have hlt : b % a < a := Nat.mod_lt _ ha
      have hpl : _calc_padding_for_alignment a b = a - b % a := by
        simp [_calc_padding_for_alignment, h]
      rw [hpl, Nat.add_mod,
          Nat.mod_eq_of_lt (Nat.sub_lt ha (Nat.pos_of_ne_zero h)),
          Nat.add_sub_cancel' (le_of_lt hlt), Nat.mod_self]
  · simp [_calc_padding_for_alignment, Nat.mod_one]

/-- Witness for C3 at `a = 8`, `b = 3`. -/
theorem claim_C3_witness :
    0 < 8
    ∧ (3 + _calc_padding_for_alignment 8 3) % 8 = 0
    ∧ _calc_padding_for_alignment 8 3 = 5 :=
  ⟨by decide, (claim_C3 8 3 (by decide)).2.1, (claim_C3 8 3 (by decide)).2.2.1⟩

/-- Claim C4: packing an Array argument whose descriptor has rank `r`
(so its value has `r` shape entries and `r` stride entries) appends, in
this fixed order, the null parent cell, the item count, the item size,
the data pointer, the `r` shape cells and then the `r` stride cells —
`4 + 2r` cells in total. -/
theorem claim_C4 (r : Nat) (a : ArrayVal) (ks : List Cell)
    (hshape : a.shape.length = r) (hstrides : a.strides.length = r) :
    _unpack_argument (.array r) (.varr a) ks =
      .ok (ks ++ [Cell.voidp 0, Cell.ssize a.size, Cell.ssize a.itemsize,
                  Cell.voidp a.data]
            ++ a.shape.map Cell.ssize ++ a.strides.map Cell.ssize)
    ∧ ([Cell.voidp 0, Cell.ssize a.size, Cell.ssize a.itemsize,
        Cell.voidp a.data] ++ a.shape.map Cell.ssize
        ++ a.strides.map Cell.ssize).length = 4 + 2 * r := by
  constructor
  · have h1 : (List.range a.ndim).map
        (fun ax => Cell.ssize (a.shape.getD ax 0)) = a.shape.map Cell.ssize := by
      rw [ArrayVal.ndim]
      exact map_range_getD _ _ _
    have h2 : (List.range a.ndim).map
        (fun ax => Cell.ssize (a.strides.getD ax 0)) =
          a.strides.map Cell.ssize := by
      rw [ArrayVal.ndim, hshape, ← hstrides]
      exact map_range_getD _ _ _
    simp only [_unpack_argument, h1, h2, List.append_assoc]
  · simp [hshape, hstrides]
    omega

/-- Witness for C4 at rank 2: exactly the 8 cells
parent, count, itemsize, dataptr, shape0, shape1, stride0, stride1. -/
theorem claim_C4_witness :
    _unpack_argument (.array 2)
        (.varr { size := 10, itemsize := 4, data := 1000,
                 shape := [2, 5], strides := [20, 4] }) [] =
      .ok [Cell.voidp 0, Cell.ssize 10, Cell.ssize 4, Cell.voidp 1000,
           Cell.ssize 2, Cell.ssize 5, Cell.ssize 20, Cell.ssize 4] :=
  (claim_C4 2
    { size := 10, itemsize := 4, data := 1000, shape := [2, 5],
      strides := [20, 4] } [] rfl rfl).1

/-- Claim C7: configure never mutates the object it was called on — in the
heap model every configure call only appends a clone, so after any
sequence of configure calls on any objects (the original or its clones)
the original objects, with their `global_size`/`local_size`/`stream`, are
all unchanged. -/
theorem claim_C7 (objs : List HSAKernelBase) (cs : List ConfigureCall) :
    (runConfigures objs cs).take objs.length = objs := by
  suffices h : ∀ (cs : List ConfigureCall) (objs : List HSAKernelBase),
      ∃ t, runConfigures objs cs = objs ++ t by
    obtain ⟨t, ht⟩ := h cs objs
    rw [ht, List.take_left]
  intro cs
  induction cs with
  | nil => exact fun objs => ⟨[], by simp [runConfigures]⟩
  | cons c cs ih =>
    intro objs
    obtain ⟨t1, ht1⟩ : ∃ t1, configureOp objs c = objs ++ t1 := by
      unfold configureOp
      cases objs.get? c.ref with
      | some k => exact ⟨[k.configure c.global_size c.local_size c.stream], rfl⟩
      | none => exact ⟨[], by simp⟩
    obtain ⟨t2, ht2⟩ := ih (configureOp objs c)
    exact ⟨t1 ++ t2, by rw [runConfigures, ht2, ht1, List.append_assoc]⟩

/-- Helper: `configure` with two explicit sequences, the local one no
longer than the global one, stores the global sequence unchanged. -/
theorem configure_seq_global (k : HSAKernelBase) (gs ls : List Int)
    (st : Option Int) (h : ls.length ≤ gs.length) :
    (k.configure (.seq gs) (some (.seq ls)) st).global_size = gs := by
  show (configureSizes (.seq gs) (some (.seq ls))).1 = gs
  simp only [configureSizes, _ensure_list]
  exact ensure_size_self _ _ (le_of_eq (Nat.max_eq_left h))


/-- Claim C8: the indexing form right-pads `gridDim` and `blockDim` to
equal rank, multiplies them element-wise into the global size, and
forwards to `configure` with the padded block dimensions; its stored
global size is exactly the element-wise product, and
`kernel[(8,), (4,)]` equals `kernel.configure((32,), (4,))`. -/
theorem claim_C8 (k : HSAKernelBase) (griddim blockdim : SizeArg)
    (stream : Option Int) :
    (k.getitem griddim blockdim stream =
      k.configure
        (.seq (List.zipWith (· * ·)
          (_ensure_size_or_append (_ensure_list griddim)
            (max (_ensure_list griddim).length (_ensure_list blockdim).length))
          (_ensure_size_or_append (_ensure_list blockdim)
            (max (_ensure_list griddim).length (_ensure_list blockdim).length))))
        (some (.seq (_ensure_size_or_append (_ensure_list blockdim)
          (max (_ensure_list griddim).length (_ensure_list blockdim).length))))
        stream)
    ∧ (k.getitem griddim blockdim stream).global_size =
        List.zipWith (· * ·)
          (_ensure_size_or_append (_ensure_list griddim)
            (max (_ensure_list griddim).length (_ensure_list blockdim).length))
          (_ensure_size_or_append (_ensure_list blockdim)
            (max (_ensure_list griddim).length (_ensure_list blockdim).length))
    ∧ k.getitem (.seq [8]) (.seq [4]) none =
        k.configure (.seq [32]) (some (.seq [4])) none := by
  refine ⟨rfl, ?_, rfl⟩
  show (k.configure (.seq _) (some (.seq _)) stream).global_size = _
  have hg : (_ensure_size_or_append (_ensure_list griddim)
      (max (_ensure_list griddim).length (_ensure_list blockdim).length)).length =
      max (_ensure_list griddim).length (_ensure_list blockdim).length := by
    rw [ensure_size_length]
    omega
  have hb : (_ensure_size_or_append (_ensure_list blockdim)
      (max (_ensure_list griddim).length (_ensure_list blockdim).length)).length =
      max (_ensure_list griddim).length (_ensure_list blockdim).length := by
    rw [ensure_size_length]
    omega
  refine configure_seq_global k _ _ stream ?_
  rw [List.length_zipWith, hg, hb]
  omega

/-- Counterexample to claim C6 as stated: calling `configure` with both
sizes given as empty sequences stores `local_size = None` rather than two
equal-rank padded sequences, because the source's
`tuple(local_size) if local_size else None` treats the empty list as
falsy. -/
theorem claim_C6_counterexample :
    HSAKernelBase.initBase.configure (.seq []) (some (.seq [])) none =
      { global_size := [], local_size := none, stream := none } := by
  rfl

/-- Claim C6 (amended): for every `configure` call with both sizes given,
unless both listify to the empty sequence, the stored `global_size` and
`local_size` are the two inputs right-padded with trailing 1s to the
larger rank, so their stored ranks are equal; when `local_size` is absent
the stored `global_size` is the unpadded input and `local_size` is
`None`. -/
theorem claim_C6 (k : HSAKernelBase) (gs ls : SizeArg) (st : Option Int) :
    ((_ensure_list gs ≠ [] ∨ _ensure_list ls ≠ []) →
      (k.configure gs (some ls) st).global_size =
        _ensure_size_or_append (_ensure_list gs)
          (max (_ensure_list gs).length (_ensure_list ls).length)
      ∧ (k.configure gs (some ls) st).local_size =
          some (_ensure_size_or_append (_ensure_list ls)
            (max (_ensure_list gs).length (_ensure_list ls).length))
      ∧ ((k.configure gs (some ls) st).local_size.getD []).length =
          (k.configure gs (some ls) st).global_size.length)
    ∧ (k.configure gs none st).global_size = _ensure_list gs
    ∧ (k.configure gs none st).local_size = none := by
  refine ⟨fun h => ?_, rfl, rfl⟩
  have hne : _ensure_size_or_append (_ensure_list ls)
      (max (_ensure_list gs).length (_ensure_list ls).length) ≠ [] := by
    intro hempty
    have hlen := congrArg List.length hempty
    rw [ensure_size_length] at hlen
    simp only [List.length_nil] at hlen
    rcases h with h | h
    · refine h (List.eq_nil_of_length_eq_zero ?_)
      omega
    · refine h (List.eq_nil_of_length_eq_zero ?_)
      omega
  have hcfg : k.configure gs (some ls) st =
      { k with
        global_size := _ensure_size_or_append (_ensure_list gs)
          (max (_ensure_list gs).length (_ensure_list ls).length),
        local_size := some (_ensure_size_or_append (_ensure_list ls)
          (max (_ensure_list gs).length (_ensure_list ls).length)),
        stream := st } := by
    simp only [HSAKernelBase.configure, configureSizes, if_neg hne]
  rw [hcfg]
  refine ⟨rfl, rfl, ?_⟩
  show (_ensure_size_or_append (_ensure_list ls) _).length =
    (_ensure_size_or_append (_ensure_list gs) _).length
  rw [ensure_size_length, ensure_size_length]
  omega

/-- Witness for C6 at `configure((2,), 4)`. -/
theorem claim_C6_witness :
    (_ensure_list (.seq [2]) ≠ [] ∨ _ensure_list (.scalar 4) ≠ [])
    ∧ ((HSAKernelBase.initBase.configure (.seq [2]) (some (.scalar 4))
          none).local_size.getD []).length =
        (HSAKernelBase.initBase.configure (.seq [2]) (some (.scalar 4))
          none).global_size.length :=
  ⟨Or.inl (by decide),
   ((claim_C6 HSAKernelBase.initBase (.seq [2]) (.scalar 4) none).1
     (Or.inl (by decide))).2.2⟩


/-- Counterexample to claim C5 as stated: invoking a kernel whose declared
argument type has no packing rule does fail with the unsupported-type
error naming the type and value, but an argument-buffer allocation HAS
been performed: `__call__` runs `bind()` — which allocates the kernarg
buffer — before any argument is unpacked, so the allocation event is in
the trace of the failing call (and the buffer is never freed). -/
theorem claim_C5_counterexample :
    (hsaKernelCall
        { argument_types := [ArgTy.other "record"], global_size := [1],
          local_size := some [1] } [Value.vother 0] 64).2 =
      .error (.pack (.notImplemented (ArgTy.other "record") (Value.vother 0)))
    ∧ Event.alloc 64 ∈
        (hsaKernelCall
          { argument_types := [ArgTy.other "record"], global_size := [1],
            local_size := some [1] } [Value.vother 0] 64).1 := by
  exact ⟨rfl, List.mem_singleton.mpr rfl⟩

/-- Claim C5 (amended): packing an argument whose type has no packing rule
fails with the unsupported-type error identifying the offending type and
value, and the packing step itself performs no allocation — whenever
unpacking fails, the trace of the whole call is exactly the one buffer
allocation already made by `bind()` before packing ran (no write, no
dispatch, no free, and no further allocation). -/
theorem claim_C5 (nm : String) (val : Value) (ks : List Cell)
    (k : KernelModel) (args : List Value) (kernargSize : Nat) (e : PackError)
    (h : unpackArgs (k.argument_types.zip args) [] = .error e) :
    _unpack_argument (.other nm) val ks =
      .error (.notImplemented (.other nm) val)
    ∧ hsaKernelCall k args kernargSize =
        ([Event.alloc kernargSize], .error (.pack e)) := by
  refine ⟨rfl, ?_⟩
  simp only [hsaKernelCall, h]

/-- Witness for C5: a call with a single argument of a record type. -/
theorem claim_C5_witness :
    unpackArgs [(ArgTy.other "record", Value.vother 7)] [] =
      .error (.notImplemented (ArgTy.other "record") (Value.vother 7))
    ∧ hsaKernelCall
        { argument_types := [ArgTy.other "record"], global_size := [1],
          local_size := some [1] } [Value.vother 7] 80 =
        ([Event.alloc 80],
         .error (.pack (.notImplemented (ArgTy.other "record")
           (Value.vother 7)))) :=
  ⟨rfl,
   (claim_C5 "record" (Value.vother 7) []
     { argument_types := [ArgTy.other "record"], global_size := [1],
       local_size := some [1] } [Value.vother 7] 80
     (.notImplemented (ArgTy.other "record") (Value.vother 7)) rfl).2⟩

/-- Claim C1: for an invoke whose arguments all marshal successfully, the
call dispatches exactly when the final running offset (padding applied
before each cell, starting right after the injected header) equals the
device-reported buffer size; any mismatch yields the fatal
`ArgumentLayoutMismatch` outcome and no dispatch event ever occurs in the
trace. -/
theorem claim_C1 (k : KernelModel) (args : List Value) (kernargSize : Nat)
    (cells : List Cell)
    (h : unpackArgs (k.argument_types.zip args) [] = .ok cells) :
    (((hsaKernelCall k args kernargSize).2 = .ok ()) ↔
      finalOffset injectedargsize cells = kernargSize)
    ∧ (finalOffset injectedargsize cells ≠ kernargSize →
        (hsaKernelCall k args kernargSize).2 =
          .error .argumentLayoutMismatch
        ∧ ∀ gs ls, Event.dispatchEv gs ls ∉
            (hsaKernelCall k args kernargSize).1) := by
  have hfst : (writeLoop injectedargsize cells).1 =
      finalOffset injectedargsize cells := writeLoop_fst cells injectedargsize
  by_cases hoff : finalOffset injectedargsize cells = kernargSize
  · have hcall : hsaKernelCall k args kernargSize =
        ([Event.alloc kernargSize] ++ (writeLoop injectedargsize cells).2 ++
          [Event.dispatchEv k.global_size k.local_size, Event.free],
         .ok ()) := by
      simp only [hsaKernelCall, h, hfst, if_pos hoff]
    rw [hcall]
    exact ⟨⟨fun _ => hoff, fun _ => rfl⟩, fun hne => absurd hoff hne⟩
  · have hcall : hsaKernelCall k args kernargSize =
        ([Event.alloc kernargSize] ++ (writeLoop injectedargsize cells).2,
         .error .argumentLayoutMismatch) := by
      simp only [hsaKernelCall, h, hfst, if_neg hoff]
    rw [hcall]
    refine ⟨⟨fun hok => absurd hok (by simp), fun heq => absurd heq hoff⟩,
      fun _ => ⟨rfl, fun gs ls hmem => ?_⟩⟩
    rcases List.mem_append.mp hmem with hmem | hmem
    · simp at hmem
    · obtain ⟨off, c, hc⟩ := writeLoop_events cells injectedargsize _ hmem
      cases hc

/-- Witness for C1: a one-int32-argument kernel; with the device-reported
size 52 the call dispatches and the final offset is 52. -/
theorem claim_C1_witness :
    unpackArgs [(ArgTy.int true 32, Value.vint 5)] [] =
      .ok [Cell.cint true 32 5]
    ∧ (((hsaKernelCall
          { argument_types := [ArgTy.int true 32], global_size := [1],
            local_size := some [1] } [Value.vint 5] 52).2 = .ok ()) ↔
        finalOffset injectedargsize [Cell.cint true 32 5] = 52) :=
  ⟨rfl,
   (claim_C1
     { argument_types := [ArgTy.int true 32], global_size := [1],
       local_size := some [1] } [Value.vint 5] 52 [Cell.cint true 32 5]
     rfl).1⟩


/-- Helper: the finalization count of a run of `get` calls is 1 exactly
when the context is requested at least once and is not already cached. -/
theorem runGets_count (fin : Nat → Nat → _CacheEntry) (c : Nat) :
    ∀ (ctxs : List Nat) (s : _CachedProgram),
      finalizeCount (runGets fin s ctxs).2 c =
        if assocLookup s._cache c = none ∧ c ∈ ctxs then 1 else 0 := by
  intro ctxs
  induction ctxs with
  | nil => intro s; simp [runGets, finalizeCount]
  | cons c1 cs ih =>
    intro s
    cases hl : assocLookup s._cache c1 with
    | some e =>
      have hstep : s.get fin c1 = (s, e, 0) := by
        simp [_CachedProgram.get, hl]
      simp only [runGets, hstep, finalizeCount]
      rw [ih s]
      by_cases hc : c1 = c
      · subst hc
        simp [hl]
      · have hmem : (c ∈ c1 :: cs) ↔ c ∈ cs := by
          rw [List.mem_cons]
          exact ⟨fun h => h.elim (fun h => absurd h.symm hc) id, Or.inr⟩
        simp [hc, hmem]
    | none =>
      have hstep : s.get fin c1 =
          ({ s with _cache := (c1, fin s._binary c1) :: s._cache },
           fin s._binary c1, 1) := by
        simp [_CachedProgram.get, hl]
      simp only [runGets, hstep, finalizeCount]
      rw [ih { s with _cache := (c1, fin s._binary c1) :: s._cache }]
      by_cases hc : c1 = c
      · subst hc
        simp [assocLookup, hl]
      · have hmem : (c ∈ c1 :: cs) ↔ c ∈ cs := by
          rw [List.mem_cons]
          exact ⟨fun h => h.elim (fun h => absurd h.symm hc) id, Or.inr⟩
        simp [assocLookup, hc, hmem]

/-- Helper: every entry a run of `get` calls returns for context `c` is
the finalization result for `(binary, c)`, and there are as many returns
as requests. -/
theorem runGets_entries (fin : Nat → Nat → _CacheEntry) (c : Nat) :
    ∀ (ctxs : List Nat) (s : _CachedProgram),
      (∀ e, assocLookup s._cache c = some e → e = fin s._binary c) →
      entriesFor (runGets fin s ctxs).2 c =
        List.replicate (ctxs.count c) (fin s._binary c) := by
  intro ctxs
  induction ctxs with
  | nil => intro s _; simp [runGets, entriesFor]
  | cons c1 cs ih =>
    intro s hgood
    cases hl : assocLookup s._cache c1 with
    | some e =>
      have hstep : s.get fin c1 = (s, e, 0) := by
        simp [_CachedProgram.get, hl]
      simp only [runGets, hstep, entriesFor]
      by_cases hc : c1 = c
      · subst hc
        have he : e = fin s._binary c1 := hgood e hl
        simp [he, List.count_cons, ih s hgood, List.replicate_succ]
      · have hcnt : (c1 :: cs).count c = cs.count c := by
          simp [List.count_cons, hc]
        simp [hc, hcnt, ih s hgood]
    | none =>
      have hstep : s.get fin c1 =
          ({ s with _cache := (c1, fin s._binary c1) :: s._cache },
           fin s._binary c1, 1) := by
        simp [_CachedProgram.get, hl]
      have hgood1 : ∀ e,
          assocLookup ((c1, fin s._binary c1) :: s._cache) c = some e →
            e = fin s._binary c := by
        intro e he
        by_cases hc : c1 = c
        · subst hc
          simp [assocLookup] at he
          rw [← he]
        · simp [assocLookup, hc] at he
          exact hgood e he
      simp only [runGets, hstep, entriesFor]
      have hrec := ih { s with _cache := (c1, fin s._binary c1) :: s._cache }
        hgood1
      by_cases hc : c1 = c
      · subst hc
        simp [List.count_cons, List.replicate_succ, hrec]
      · have hcnt : (c1 :: cs).count c = cs.count c := by
          simp [List.count_cons, hc]
        simp [hc, hcnt, hrec]

/-- Claim C2: over any sequence of `get` calls on a freshly constructed
`_CachedProgram`, finalization runs exactly once for every requested
context and never for any other; every return for a context is the single
finalization result for that (binary, context) pair; and a repeated `get`
for the same context returns the stored entry, leaves the cache unchanged
and performs no finalization. -/
theorem claim_C2 (name : String) (bin : Nat) (fin : Nat → Nat → _CacheEntry)
    (ctxs : List Nat) (c : Nat) :
    finalizeCount (runGets fin ⟨name, bin, []⟩ ctxs).2 c =
      (if c ∈ ctxs then 1 else 0)
    ∧ entriesFor (runGets fin ⟨name, bin, []⟩ ctxs).2 c =
        List.replicate (ctxs.count c) (fin bin c)
    ∧ ∀ (s : _CachedProgram) (ctx : Nat),
        (s.get fin ctx).1.get fin ctx =
          ((s.get fin ctx).1, (s.get fin ctx).2.1, 0) := by
  refine ⟨?_, ?_, ?_⟩
  · rw [runGets_count]
    simp [assocLookup]
  · exact runGets_entries fin c ctxs ⟨name, bin, []⟩
      (fun e he => by simp [assocLookup] at he)
  · intro s ctx
    cases hl : assocLookup s._cache ctx with
    | some e => simp [_CachedProgram.get, hl]
    | none =>
      have h1 : s.get fin ctx =
          ({ s with _cache := (ctx, fin s._binary ctx) :: s._cache },
           fin s._binary ctx, 1) := by
        simp [_CachedProgram.get, hl]
      rw [h1]
      simp [_CachedProgram.get, assocLookup]


/-- Helper: the number of compilations of a signature over a run of
`specialize` calls is 1 exactly when the signature is requested and is not
already in the table. -/
theorem runSpecialize_count (resolve : Value → ArgTy) (sig : List ArgTy) :
    ∀ (calls : List (List Value)) (s : AutoJitHSAKernel),
      (runSpecialize resolve s calls).compiled.count sig =
        s.compiled.count sig +
          (if assocLookup s.definitions sig = none ∧
              sig ∈ calls.map (fun a => a.map resolve) then 1 else 0) := by
  intro calls
  induction calls with
  | nil => intro s; simp [runSpecialize]
  | cons args cs ih =>
    intro s
    cases hl : assocLookup s.definitions (args.map resolve) with
    | some kid =>
      have hstep : s.specialize resolve args = (s, kid) := by
        simp [AutoJitHSAKernel.specialize, hl]
      simp only [runSpecialize, hstep]
      rw [ih s]
      by_cases hsig : args.map resolve = sig
      · rw [hsig] at hl
        simp [hl]
      · have hmem : (sig ∈ (args :: cs).map (fun a => a.map resolve)) ↔
            sig ∈ cs.map (fun a => a.map resolve) := by
          rw [List.map_cons, List.mem_cons]
          exact ⟨fun h => h.elim (fun h => absurd h.symm hsig) id, Or.inr⟩
        simp [hmem, show sig ≠ List.map resolve args from fun h => hsig h.symm]
    | none =>
      have hstep : s.specialize resolve args =
          ({ definitions := (args.map resolve, s.nextId) :: s.definitions,
             nextId := s.nextId + 1,
             compiled := s.compiled ++ [args.map resolve] }, s.nextId) := by
        simp [AutoJitHSAKernel.specialize, hl]
      simp only [runSpecialize, hstep]
      rw [ih { definitions := (args.map resolve, s.nextId) :: s.definitions,
               nextId := s.nextId + 1,
               compiled := s.compiled ++ [args.map resolve] }]
      by_cases hsig : args.map resolve = sig
      · subst hsig
        simp [assocLookup, List.count_append, List.count_cons, hl]
      · have hmem : (sig ∈ (args :: cs).map (fun a => a.map resolve)) ↔
            sig ∈ cs.map (fun a => a.map resolve) := by
          rw [List.map_cons, List.mem_cons]
          exact ⟨fun h => h.elim (fun h => absurd h.symm hsig) id, Or.inr⟩
        simp [assocLookup, hsig, hmem, List.count_append, List.count_cons,
          show sig ≠ List.map resolve args from fun h => hsig h.symm]

/-- Helper: kernel-object ids in the table stay below `nextId` and are
pairwise distinct after any run of `specialize` calls. -/
theorem runSpecialize_ids (resolve : Value → ArgTy) :
    ∀ (calls : List (List Value)) (s : AutoJitHSAKernel),
      (∀ p ∈ s.definitions, p.2 < s.nextId) →
      (s.definitions.map Prod.snd).Nodup →
      (∀ p ∈ (runSpecialize resolve s calls).definitions,
          p.2 < (runSpecialize resolve s calls).nextId)
      ∧ ((runSpecialize resolve s calls).definitions.map Prod.snd).Nodup := by
  intro calls
  induction calls with
  | nil => intro s hbound hnodup; exact ⟨hbound, hnodup⟩
  | cons args cs ih =>
    intro s hbound hnodup
    cases hl : assocLookup s.definitions (args.map resolve) with
    | some kid =>
      have hstep : s.specialize resolve args = (s, kid) := by
        simp [AutoJitHSAKernel.specialize, hl]
      simp only [runSpecialize, hstep]
      exact ih s hbound hnodup
    | none =>
      have hstep : s.specialize resolve args =
          ({ definitions := (args.map resolve, s.nextId) :: s.definitions,
             nextId := s.nextId + 1,
             compiled := s.compiled ++ [args.map resolve] }, s.nextId) := by
        simp [AutoJitHSAKernel.specialize, hl]
      simp only [runSpecialize, hstep]
      refine ih _ ?_ ?_
      · intro p hp
        rcases List.mem_cons.mp hp with hp | hp
        · rw [hp]
          exact Nat.lt_succ_self _
        · exact Nat.lt_succ_of_lt (hbound p hp)
      · rw [List.map_cons]
        refine List.nodup_cons.mpr ⟨?_, hnodup⟩
        intro hmem
        obtain ⟨p, hp, hpe⟩ := List.mem_map.mp hmem
        exact absurd hpe (Nat.ne_of_lt (hbound p hp))

/-- Helper: an existing table entry survives one `specialize` call. -/
theorem specialize_keeps (resolve : Value → ArgTy) (s : AutoJitHSAKernel)
    (args : List Value) (sig : List ArgTy) (kid : Nat)
    (h : assocLookup s.definitions sig = some kid) :
    assocLookup (s.specialize resolve args).1.definitions sig = some kid := by
  cases hl : assocLookup s.definitions (args.map resolve) with
  | some k0 =>
    have hstep : s.specialize resolve args = (s, k0) := by
      simp [AutoJitHSAKernel.specialize, hl]
    rw [hstep]
    exact h
  | none =>
    have hstep : s.specialize resolve args =
        ({ definitions := (args.map resolve, s.nextId) :: s.definitions,
           nextId := s.nextId + 1,
           compiled := s.compiled ++ [args.map resolve] }, s.nextId) := by
      simp [AutoJitHSAKernel.specialize, hl]
    rw [hstep]
    have hne : args.map resolve ≠ sig := by
      intro he
      rw [he, h] at hl
      cases hl
    simp [assocLookup, hne]
    exact h

/-- Helper: an existing table entry survives a run of `specialize`
calls. -/
theorem runSpecialize_keeps (resolve : Value → ArgTy) :
    ∀ (calls : List (List Value)) (s : AutoJitHSAKernel) (sig : List ArgTy)
      (kid : Nat),
      assocLookup s.definitions sig = some kid →
      assocLookup (runSpecialize resolve s calls).definitions sig =
        some kid := by
  intro calls
  induction calls with
  | nil => intro s sig kid h; exact h
  | cons args cs ih =>
    intro s sig kid h
    exact ih _ sig kid (specialize_keeps resolve s args sig kid h)

/-- Helper: running the concatenation of two call lists is running them
in sequence. -/
theorem runSpecialize_append (resolve : Value → ArgTy) :
    ∀ (l1 l2 : List (List Value)) (s : AutoJitHSAKernel),
      runSpecialize resolve s (l1 ++ l2) =
        runSpecialize resolve (runSpecialize resolve s l1) l2 := by
  intro l1
  induction l1 with
  | nil => intro l2 s; rfl
  | cons a l1 ih => intro l2 s; exact ih l2 _

/-- Claim C9: on a fresh auto-specializing kernel, any run of calls
compiles each resolved signature exactly once if it occurs and never
otherwise; a repeated `specialize` with the same arguments returns the
cached kernel object and leaves the table unchanged; all cached kernel
objects are pairwise distinct (so two different signatures map to two
distinct kernel objects); and entries are never evicted by later calls. -/
theorem claim_C9 (resolve : Value → ArgTy) (calls : List (List Value))
    (sig : List ArgTy) :
    (runSpecialize resolve .initJit calls).compiled.count sig =
      (if sig ∈ calls.map (fun a => a.map resolve) then 1 else 0)
    ∧ (∀ (s : AutoJitHSAKernel) (args : List Value),
        (s.specialize resolve args).1.specialize resolve args =
          s.specialize resolve args)
    ∧ ((runSpecialize resolve .initJit calls).definitions.map Prod.snd).Nodup
    ∧ (∀ (kid : Nat) (more : List (List Value)),
        assocLookup (runSpecialize resolve .initJit calls).definitions sig =
          some kid →
        assocLookup
            (runSpecialize resolve .initJit (calls ++ more)).definitions sig =
          some kid) := by
  refine ⟨?_, ?_, ?_, ?_⟩
  · rw [runSpecialize_count]
    simp [AutoJitHSAKernel.initJit, assocLookup]
  · intro s args
    cases hl : assocLookup s.definitions (args.map resolve) with
    | some kid =>
      have hstep : s.specialize resolve args = (s, kid) := by
        simp [AutoJitHSAKernel.specialize, hl]
      rw [hstep, hstep]
    | none =>
      have hstep : s.specialize resolve args =
          ({ definitions := (args.map resolve, s.nextId) :: s.definitions,
             nextId := s.nextId + 1,
             compiled := s.compiled ++ [args.map resolve] }, s.nextId) := by
        simp [AutoJitHSAKernel.specialize, hl]
      rw [hstep]
      simp [AutoJitHSAKernel.specialize, assocLookup]
  · exact (runSpecialize_ids resolve calls .initJit (by intro p hp; cases hp)
      (by exact List.nodup_nil)).2
  · intro kid more h
    rw [runSpecialize_append]
    exact runSpecialize_keeps resolve more _ sig kid h

/-- Witness for C9: two calls with an int argument then one with a float
argument; the int signature stays cached across the later calls. -/
theorem claim_C9_witness :
    assocLookup
        (runSpecialize (fun v => match v with
          | Value.vint _ => ArgTy.int true 64
          | _ => ArgTy.float64) .initJit [[Value.vint 3]]).definitions
        [ArgTy.int true 64] = some 0
    ∧ assocLookup
        (runSpecialize (fun v => match v with
          | Value.vint _ => ArgTy.int true 64
          | _ => ArgTy.float64) .initJit
          ([[Value.vint 3]] ++ [[Value.vfloat 2], [Value.vint 5]])).definitions
        [ArgTy.int true 64] = some 0 :=
  ⟨rfl,
   (claim_C9 (fun v => match v with
      | Value.vint _ => ArgTy.int true 64
      | _ => ArgTy.float64) [[Value.vint 3]] [ArgTy.int true 64]).2.2.2 0
    [[Value.vfloat 2], [Value.vint 5]] rfl⟩


/-- Helper: `HSAKernelObj.configure` (a shallow copy plus overwriting the
three configuration fields) preserves the cache reference. -/
theorem configure_cacheRef (k : HSAKernelObj) (gs : SizeArg)
    (ls : Option SizeArg) (st : Option Int) :
    (k.configure gs ls st).cacheRef = k.cacheRef := rfl

/-- Helper: starting from any kernel heap whose objects all refer to the
single cache, any run of configure/bind operations keeps every kernel
object referring to that cache, keeps exactly one cache object, and
finalizes a given context at most once (never, if it is already
cached). -/
theorem runSys_singleton (fin : Nat → Nat → _CacheEntry) (c : Nat) :
    ∀ (ops : List KernelOp) (ks : List HSAKernelObj) (cp : _CachedProgram),
      (∀ k ∈ ks, k.cacheRef = 0) →
      (∀ k ∈ (runSys fin ⟨ks, [cp]⟩ ops).1.kernels, k.cacheRef = 0)
      ∧ (runSys fin ⟨ks, [cp]⟩ ops).1.caches.length = 1
      ∧ (runSys fin ⟨ks, [cp]⟩ ops).2.count c ≤
          (if assocLookup cp._cache c = none then 1 else 0) := by
  intro ops
  induction ops with
  | nil =>
    intro ks cp hks
    refine ⟨hks, rfl, ?_⟩
    simp [runSys]
  | cons op ops ih =>
    intro ks cp hks
    cases op with
    | configureK ref gs ls st =>
      cases hk : ks.get? ref with
      | some k =>
        have hstep : sysStep fin ⟨ks, [cp]⟩ (.configureK ref gs ls st) =
            (⟨ks ++ [k.configure gs ls st], [cp]⟩, []) := by
          simp only [sysStep, hk]
        have hall : ∀ k2 ∈ ks ++ [k.configure gs ls st], k2.cacheRef = 0 := by
          intro k2 hk2
          rcases List.mem_append.mp hk2 with h | h
          · exact hks k2 h
          · rw [List.mem_singleton.mp h, configure_cacheRef]
            exact hks k (List.get?_mem hk)
        have hrec := ih (ks ++ [k.configure gs ls st]) cp hall
        simp only [runSys, hstep]
        exact ⟨hrec.1, hrec.2.1, by simpa using hrec.2.2⟩
      | none =>
        have hstep : sysStep fin ⟨ks, [cp]⟩ (.configureK ref gs ls st) =
            (⟨ks, [cp]⟩, []) := by
          simp only [sysStep, hk]
        have hrec := ih ks cp hks
        simp only [runSys, hstep]
        exact ⟨hrec.1, hrec.2.1, by simpa using hrec.2.2⟩
    | bindK ref ctx =>
      cases hk : ks.get? ref with
      | some k =>
        have hk0 : k.cacheRef = 0 := hks k (List.get?_mem hk)
        cases hl : assocLookup cp._cache ctx with
        | some e =>
          have hget : cp.get fin ctx = (cp, e, 0) := by
            simp [_CachedProgram.get, hl]
          have hstep : sysStep fin ⟨ks, [cp]⟩ (.bindK ref ctx) =
              (⟨ks, [cp]⟩, []) := by
            simp only [sysStep, hk, hk0, hget, List.get?, List.set,
              List.replicate]
          have hrec := ih ks cp hks
          simp only [runSys, hstep]
          exact ⟨hrec.1, hrec.2.1, by simpa using hrec.2.2⟩
        | none =>
          have hget : cp.get fin ctx =
              ({ cp with _cache := (ctx, fin cp._binary ctx) :: cp._cache },
               fin cp._binary ctx, 1) := by
            simp [_CachedProgram.get, hl]
          have hstep : sysStep fin ⟨ks, [cp]⟩ (.bindK ref ctx) =
              (⟨ks,
                [{ cp with
                    _cache := (ctx, fin cp._binary ctx) :: cp._cache }]⟩,
               [ctx]) := by
            simp only [sysStep, hk, hk0, hget, List.get?, List.set,
              List.replicate]
          have hrec := ih ks
            { cp with _cache := (ctx, fin cp._binary ctx) :: cp._cache } hks
          simp only [runSys, hstep]
          refine ⟨hrec.1, hrec.2.1, ?_⟩
          have hcount := hrec.2.2
          by_cases hc : ctx = c
          · subst hc
            have hlook1 : assocLookup
                ((ctx, fin cp._binary ctx) :: cp._cache) ctx =
                  some (fin cp._binary ctx) := by
              simp [assocLookup]
            rw [hlook1] at hcount
            simp only [List.count_cons, List.count_append, hl]
            simp at hcount ⊢
            omega
          · have hlook1 : assocLookup
                ((ctx, fin cp._binary ctx) :: cp._cache) c =
                  assocLookup cp._cache c := by
              simp [assocLookup, hc]
            rw [hlook1] at hcount
            have : (List.cons ctx [] ++ (runSys fin
                ⟨ks, [{ cp with
                  _cache := (ctx, fin cp._binary ctx) :: cp._cache }]⟩
                ops).2).count c =
                (runSys fin ⟨ks, [{ cp with
                  _cache := (ctx, fin cp._binary ctx) :: cp._cache }]⟩
                ops).2.count c := by
              simp [List.count_cons, hc]
            rw [this]
            exact hcount
      | none =>
        have hstep : sysStep fin ⟨ks, [cp]⟩ (.bindK ref ctx) =
            (⟨ks, [cp]⟩, []) := by
          simp only [sysStep, hk]
        have hrec := ih ks cp hks
        simp only [runSys, hstep]
        exact ⟨hrec.1, hrec.2.1, by simpa using hrec.2.2⟩

/-- Claim C10: starting from a freshly built `HSAKernel` (one kernel
object, one `_CachedProgram`), after any sequence of configure and bind
operations on the original or on any of its clones, every reachable
kernel object still refers to the original's cache, there is still
exactly one cache object, and every device context has been finalized at
most once across all clones. -/
theorem claim_C10 (name : String) (bin : Nat) (fin : Nat → Nat → _CacheEntry)
    (ops : List KernelOp) (c : Nat) :
    ((runSys fin (initSys name bin) ops).1.kernels.all
        fun k => k.cacheRef == 0) = true
    ∧ (runSys fin (initSys name bin) ops).1.caches.length = 1
    ∧ (runSys fin (initSys name bin) ops).2.count c ≤ 1 := by
  have h := runSys_singleton fin c ops
    [{ global_size := [1], local_size := some [1], stream := none,
       cacheRef := 0 }]
    { _entry_name := name, _binary := bin, _cache := [] }
    (by
      intro k hk
      rw [List.mem_singleton.mp hk])
  simp only [initSys]
  refine ⟨?_, h.2.1, ?_⟩
  · rw [List.all_eq_true]
    intro k hk
    simp [h.1 k hk]
  · have hcount := h.2.2
    simpa [assocLookup] using hcount

end NumbaHsa
